import Mathlib

/-!
Verification of the bounded tail-window extraction engine (`tailr`).

The definitions below are a shallow embedding of `src/tailr/src/lib.rs`:

* `TakeValue` mirrors the Rust enum `TakeValue` (`PlusZero` / `TakeNum(i64)`).
* `get_start_index` mirrors `get_start_index`; Rust `i64` values are embedded
  as `Int`, with the one arithmetic operation that can leave the `i64` range
  (`total + num`) performed modulo 2^64 (`wrap64`), which is the
  two's-complement wrapping behaviour of a release build.  The companion
  predicate `gsiPanics` marks exactly the inputs on which that addition
  leaves the `i64` range, i.e. the inputs on which a debug build panics with
  an arithmetic-overflow error.
* `parse_num_without_regex` / `parse_num` mirror the two offset parsers;
  strings are embedded as `List Char`, Rust's `str::parse::<i64>` as
  `parseI64`, and the regex `^([+-])?(\d+)$` as `regexCaptures`.
* `print_bytes` / `print_lines` / `count_lines_bytes` / `runLoop` mirror the
  streaming layer, with a byte stream embedded as `List Nat` (byte values)
  and the output sink as the list of bytes written to stdout.
-/

namespace Tailr

/-- `i64::MIN` = -(2^63). -/
def i64Min : Int := -9223372036854775808

/-- `i64::MAX` = 2^63 - 1. -/
def i64Max : Int := 9223372036854775807

/-- Two's-complement wrapping of an integer into the `i64` range,
the behaviour of overflowing `i64` arithmetic in a Rust release build. -/
def wrap64 (x : Int) : Int :=
  (x + 9223372036854775808) % 18446744073709551616 - 9223372036854775808

/-- The Rust enum `TakeValue`: `PlusZero` | `TakeNum(i64)`. -/
inductive TakeValue where
  | PlusZero : TakeValue
  | TakeNum : Int → TakeValue
deriving DecidableEq, Repr

/-- `tv` carries only values representable as `i64`. -/
def tvInRange : TakeValue → Prop
  | .PlusZero => True
  | .TakeNum n => i64Min ≤ n ∧ n ≤ i64Max

instance : DecidablePred tvInRange := by
  intro tv
  cases tv <;> simp [tvInRange] <;> infer_instance

/-- Embedding of `get_start_index(take_val: &TakeValue, total: i64) -> Option<u64>`.
The returned `u64` start offset is embedded as `Nat` (the `start as u64` cast is
only executed when `start >= 0`, where it is value-preserving).  The addition
`total + num` is wrapped (`wrap64`): see `gsiPanics` for the overflow cases. -/
def get_start_index (take_val : TakeValue) (total : Int) : Option Nat :=
  match take_val with
  | .PlusZero => if 0 < total then some 0 else none
  | .TakeNum num =>
    if num = 0 ∨ total = 0 ∨ total < num then none
    else
      let start := if num < 0 then wrap64 (total + num) else num - 1
      some (if start < 0 then 0 else start.toNat)

/-- `true` exactly when evaluating `get_start_index` reaches the expression
`total + num` and its mathematical value lies outside the `i64` range — the
inputs on which a debug build of the Rust source panics (overflow). -/
def gsiPanics (take_val : TakeValue) (total : Int) : Bool :=
  match take_val with
  | .PlusZero => false
  | .TakeNum num =>
    if num = 0 ∨ total = 0 ∨ total < num then false
    else if num < 0 then decide (total + num < i64Min ∨ i64Max < total + num)
    else false

instance {ε α : Type} [DecidableEq ε] [DecidableEq α] : DecidableEq (Except ε α) := fun
  | .ok a, .ok b =>
    if h : a = b then .isTrue (by rw [h])
    else .isFalse (by intro he; cases he; exact h rfl)
  | .ok _, .error _ => .isFalse (by intro h; cases h)
  | .error _, .ok _ => .isFalse (by intro h; cases h)
  | .error e, .error f =>
    if h : e = f then .isTrue (by rw [h])
    else .isFalse (by intro he; cases he; exact h rfl)

/-- Two's-complement wrapping negation, `i64::wrapping_neg`. -/
def wrappingNeg64 (x : Int) : Int := wrap64 (-x)

/-- ASCII decimal digit test, the character class `[0-9]`. -/
def isDig (c : Char) : Bool := decide ('0' ≤ c ∧ c ≤ '9')

/-- Numeric value of a string of decimal digits (most significant first). -/
def digitsVal (ds : List Char) : Nat :=
  ds.foldl (fun a c => a * 10 + (c.toNat - 48)) 0

/-- The digit-accumulation loop inside Rust's `str::parse::<i64>`: consumes
characters left to right, failing on any non-digit. -/
def parseDigitsAux : List Char → Nat → Option Nat
  | [], acc => some acc
  | c :: cs, acc => if isDig c then parseDigitsAux cs (acc * 10 + (c.toNat - 48)) else none

/-- Shared body of `parseI64`: a (possibly empty) digit string together with
the sign (`1` or `-1`) taken from the optional leading sign character.
Rust rejects an empty digit string and any value outside the `i64` range
(Rust checks overflow incrementally during accumulation; the net effect is
exactly this range check on the mathematical value). -/
def parseI64Core (sign : Int) (digits : List Char) : Option Int :=
  if digits = [] then none
  else
    match parseDigitsAux digits 0 with
    | some m =>
      let v := sign * (m : Int)
      if i64Min ≤ v ∧ v ≤ i64Max then some v else none
    | none => none

/-- Embedding of Rust's `str::parse::<i64>`: an optional leading `+`/`-`
followed by one or more ASCII decimal digits, value within the `i64` range. -/
def parseI64 : List Char → Option Int
  | [] => parseI64Core 1 []
  | c :: rest =>
    if c = '+' then parseI64Core 1 rest
    else if c = '-' then parseI64Core (-1) rest
    else parseI64Core 1 (c :: rest)

/-- `val.starts_with(&['+', '-'])`. -/
def startsWithSign : List Char → Bool
  | [] => false
  | c :: _ => decide (c = '+' ∨ c = '-')

/-- Embedding of `parse_num_without_regex(val: &str) -> MyResult<TakeValue>`:
if `val` starts with a sign it is parsed as written, otherwise the parsed
(non-negative) value is `wrapping_neg`-negated; a parse failure yields an
error carrying the original string. -/
def parse_num_without_regex (val : List Char) : Except (List Char) TakeValue :=
  let res : Option Int :=
    if startsWithSign val then parseI64 val
    else (parseI64 val).map wrappingNeg64
  match res with
  | some num =>
    if num = 0 ∧ val.head? = some '+' then .ok .PlusZero else .ok (.TakeNum num)
  | none => .error val

/-- Embedding of the regex `^([+-])?(\d+)$` applied to `val`: on a match,
the optional sign capture and the digit capture.  `\d` in the source is the
Unicode class; it is modelled as ASCII `[0-9]` here, which is observationally
equivalent: a non-ASCII decimal digit makes the subsequent `i64` parse in
`parse_num` fail, so the result is `Err(val)` exactly as when the regex
itself fails to match. -/
def regexCaptures (val : List Char) : Option (Option Char × List Char) :=
  match val with
  | [] => none
  | c :: rest =>
    if c = '+' ∨ c = '-' then
      if rest ≠ [] ∧ rest.all isDig then some (some c, rest) else none
    else if (c :: rest).all isDig then some (none, c :: rest) else none

/-- Embedding of `parse_num(val: &str) -> MyResult<TakeValue>`: the regex
version, which defaults a missing sign capture to `"-"`, concatenates
sign and digits, and parses the result as `i64` (so the implicit negative
sign is applied before parsing). -/
def parse_num (val : List Char) : Except (List Char) TakeValue :=
  match regexCaptures val with
  | some (signOpt, digits) =>
    let sign : Char := signOpt.getD '-'
    match parseI64 (sign :: digits) with
    | some v => if sign = '+' ∧ v = 0 then .ok .PlusZero else .ok (.TakeNum v)
    | none => .error val
  | none => .error val

/-- The pattern `[+-]?[0-9]+` of the spec: an optional leading sign followed
by one or more ASCII decimal digits. -/
def matchesNumPat : List Char → Bool
  | [] => false
  | c :: rest =>
    if c = '+' ∨ c = '-' then rest ≠ [] && rest.all isDig
    else (c :: rest).all isDig

/-- Result of examining the head of a byte sequence during UTF-8 decoding:
either a well-formed scalar occupying `1 + extra` bytes, or a maximal invalid
subpart of `1 + extra` bytes that lossy decoding replaces by one U+FFFD. -/
inductive Utf8Step where
  | valid (extra : Nat) : Utf8Step
  | invalid (extra : Nat) : Utf8Step
deriving DecidableEq, Repr

/-- `0x80 <= b <= 0xBF`: a UTF-8 continuation byte. -/
def isCont (b : Nat) : Bool := decide (128 ≤ b ∧ b ≤ 191)

/-- One step of Rust std's UTF-8 validation (`run_utf8_validation`), as used
by `String::from_utf8_lossy`: classify the sequence starting at byte `b`
(with following bytes `rest`).  On error the number of bytes consumed is the
length of the maximal subpart of a valid sequence (substitution of maximal
subparts), matching std's reported `error_len` / trailing-incomplete chunk. -/
def utf8Head (b : Nat) (rest : List Nat) : Utf8Step :=
  if b ≤ 0x7F then .valid 0
  else if b < 0xC2 then .invalid 0
  else if b ≤ 0xDF then
    match rest with
    | [] => .invalid 0
    | c1 :: _ => if isCont c1 then .valid 1 else .invalid 0
  else if b ≤ 0xEF then
    let lo1 := if b = 0xE0 then 0xA0 else 0x80
    let hi1 := if b = 0xED then 0x9F else 0xBF
    match rest with
    | [] => .invalid 0
    | c1 :: rest2 =>
      if lo1 ≤ c1 ∧ c1 ≤ hi1 then
        match rest2 with
        | [] => .invalid 1
        | c2 :: _ => if isCont c2 then .valid 2 else .invalid 1
      else .invalid 0
  else if b ≤ 0xF4 then
    let lo1 := if b = 0xF0 then 0x90 else 0x80
    let hi1 := if b = 0xF4 then 0x8F else 0xBF
    match rest with
    | [] => .invalid 0
    | c1 :: rest2 =>
      if lo1 ≤ c1 ∧ c1 ≤ hi1 then
        match rest2 with
        | [] => .invalid 1
        | c2 :: rest3 =>
          if isCont c2 then
            match rest3 with
            | [] => .invalid 2
            | c3 :: _ => if isCont c3 then .valid 3 else .invalid 2
          else .invalid 1
      else .invalid 0
  else .invalid 0

/-- Recursion worker for `utf8Lossy`.  Each step consumes at least one byte,
so `fuel` bounded below by the list length makes the structural recursion on
`fuel` equivalent to recursion on the remaining bytes; the fuel-exhausted
branch is unreachable for the fuel chosen in `utf8Lossy`. -/
def utf8LossyAux : Nat → List Nat → List Nat
  | _, [] => []
  | 0, _ :: _ => []
  | fuel + 1, b :: rest =>
    match utf8Head b rest with
    | .valid k =>
      (b :: rest).take (k + 1) ++ utf8LossyAux fuel ((b :: rest).drop (k + 1))
    | .invalid k =>
      [0xEF, 0xBF, 0xBD] ++ utf8LossyAux fuel ((b :: rest).drop (k + 1))

/-- Embedding of `String::from_utf8_lossy` at the byte level: well-formed
scalars are copied unchanged; each maximal invalid subpart is replaced by
the UTF-8 encoding of U+FFFD, the bytes `EF BF BD`. -/
def utf8Lossy (l : List Nat) : List Nat := utf8LossyAux l.length l

/-- Recursion worker for `utf8Valid`; fuel as in `utf8LossyAux`. -/
def utf8ValidAux : Nat → List Nat → Bool
  | _, [] => true
  | 0, _ :: _ => false
  | fuel + 1, b :: rest =>
    match utf8Head b rest with
    | .valid k => utf8ValidAux fuel ((b :: rest).drop (k + 1))
    | .invalid _ => false

/-- The byte sequence is well-formed UTF-8 (every step of the validation
succeeds); on such input `String::from_utf8_lossy` is the identity. -/
def utf8Valid (l : List Nat) : Bool := utf8ValidAux l.length l

/-- The chunks delivered by the `read_until(b'\n', ..)` loops: the stream
split after every newline byte (10), each chunk keeping its terminator, a
trailing unterminated fragment forming a final chunk. -/
def splitLinesAux : List Nat → List Nat → List (List Nat)
  | [], acc => if acc = [] then [] else [acc.reverse]
  | b :: rest, acc =>
    if b = 10 then (b :: acc).reverse :: splitLinesAux rest []
    else splitLinesAux rest (b :: acc)

def splitLines (data : List Nat) : List (List Nat) := splitLinesAux data []

/-- Embedding of `count_lines_bytes`: one forward scan with `read_until`,
counting chunks (lines) and summing the chunk sizes (bytes). -/
def count_lines_bytes (data : List Nat) : Int × Int :=
  (((splitLines data).length : Int),
   (((splitLines data).map List.length).sum : Int))

/-- Embedding of `print_bytes`: if the selector yields `Some(start)`, seek to
`start` (drop the first `start` bytes), read the remainder to the end, and
print it through `String::from_utf8_lossy`.  (The source's emptiness check
before printing only skips printing an empty string and does not change the
output bytes.) -/
def print_bytes (stream : List Nat) (num_bytes : TakeValue) (total_bytes : Int) :
    List Nat :=
  match get_start_index num_bytes total_bytes with
  | some start => utf8Lossy (stream.drop start)
  | none => []

/-- Embedding of `print_lines`: if the selector yields `Some(start)`, re-read
the stream chunk by chunk (`read_until(b'\n', ..)`), printing every chunk
whose zero-based index is at least `start`, each through
`String::from_utf8_lossy`. -/
def print_lines (stream : List Nat) (num_lines : TakeValue) (total_lines : Int) :
    List Nat :=
  match get_start_index num_lines total_lines with
  | some start => (((splitLines stream).drop start).map utf8Lossy).flatten
  | none => []

/-- The per-file body of `run`: byte mode when a byte spec is present, line
mode otherwise, each applied to the total computed by `count_lines_bytes`. -/
def fileBody (linesSpec : TakeValue) (bytesSpec : Option TakeValue)
    (data : List Nat) : List Nat :=
  match bytesSpec with
  | some nb => print_bytes data nb (count_lines_bytes data).2
  | none => print_lines data linesSpec (count_lines_bytes data).1

/-- Embedding of the loop in `run`.  A file is a pair of its path (as UTF-8
bytes) and `some` content when `File::open` succeeds, `none` when it fails
(the failure is reported on stderr and contributes nothing to stdout).
`fileNum` is the enumeration index.  For an opened file, when the quiet flag
is unset and more than one file was given, `run` first prints
`"{}==> {} <=="` with a `"\n"` prefix for `fileNum > 0` (bytes: `==> ` is
`61 61 62 32`, ` <==` is `32 60 61 61`, and `println!` appends `10`). -/
def runLoop (numFiles : Nat) (quiet : Bool) (ls : TakeValue)
    (bs : Option TakeValue) :
    Nat → List (List Nat × Option (List Nat)) → List Nat
  | _, [] => []
  | fileNum, (filename, content) :: rest =>
    (match content with
     | none => []
     | some data =>
       (if ¬quiet ∧ 1 < numFiles then
          (if 0 < fileNum then [10] else [])
            ++ [61, 61, 62, 32] ++ filename ++ [32, 60, 61, 61, 10]
        else [])
         ++ fileBody ls bs data)
      ++ runLoop numFiles quiet ls bs (fileNum + 1) rest

/-- stdout produced by `run` over the given files. -/
def runOutput (files : List (List Nat × Option (List Nat))) (ls : TakeValue)
    (bs : Option TakeValue) (quiet : Bool) : List Nat :=
  runLoop files.length quiet ls bs 0 files

theorem wrap64_eq_self {x : Int} (h1 : i64Min ≤ x) (h2 : x ≤ i64Max) :
    wrap64 x = x := by
  unfold wrap64
  unfold i64Min at h1
  unfold i64Max at h2
  have : (x + 9223372036854775808) % 18446744073709551616 =
      x + 9223372036854775808 :=
    Int.emod_eq_of_lt (by omega) (by omega)
  omega

example : get_start_index .PlusZero 0 = none := by decide
example : get_start_index .PlusZero 1 = some 0 := by decide
example : get_start_index (.TakeNum 0) 1 = none := by decide
example : get_start_index (.TakeNum 1) 0 = none := by decide
example : get_start_index (.TakeNum 2) 1 = none := by decide
example : get_start_index (.TakeNum 1) 10 = some 0 := by decide
example : get_start_index (.TakeNum 3) 10 = some 2 := by decide
example : get_start_index (.TakeNum (-1)) 10 = some 9 := by decide
example : get_start_index (.TakeNum (-3)) 10 = some 7 := by decide
example : get_start_index (.TakeNum (-20)) 10 = some 0 := by decide
example : get_start_index (.TakeNum i64Min) 5 = some 0 := by decide
example : gsiPanics (.TakeNum i64Min) (-1) = true := by decide
example : gsiPanics (.TakeNum i64Min) 7 = false := by decide

example : parse_num_without_regex "3".toList = .ok (.TakeNum (-3)) := by decide
example : parse_num_without_regex "+3".toList = .ok (.TakeNum 3) := by decide
example : parse_num_without_regex "-3".toList = .ok (.TakeNum (-3)) := by decide
example : parse_num_without_regex "0".toList = .ok (.TakeNum 0) := by decide
example : parse_num_without_regex "+0".toList = .ok .PlusZero := by decide
example : parse_num_without_regex "3.14".toList = .error "3.14".toList := by decide
example : parse_num_without_regex "foo".toList = .error "foo".toList := by decide
example : parse_num "3".toList = .ok (.TakeNum (-3)) := by decide
example : parse_num "+3".toList = .ok (.TakeNum 3) := by decide
example : parse_num "-3".toList = .ok (.TakeNum (-3)) := by decide
example : parse_num "0".toList = .ok (.TakeNum 0) := by decide
example : parse_num "+0".toList = .ok .PlusZero := by decide
example : parse_num "3.14".toList = .error "3.14".toList := by decide
example :
    parse_num_without_regex "9223372036854775807".toList
      = .ok (.TakeNum (-9223372036854775807)) := by decide
example :
    parse_num_without_regex "-9223372036854775808".toList
      = .ok (.TakeNum (-9223372036854775808)) := by decide
example :
    parse_num_without_regex "9223372036854775808".toList
      = .error "9223372036854775808".toList := by decide
example :
    parse_num "9223372036854775808".toList
      = .ok (.TakeNum (-9223372036854775808)) := by decide

example : utf8Lossy [255] = [239, 191, 189] := by decide
example : utf8Lossy [104, 105, 10] = [104, 105, 10] := by decide
example : utf8Valid [104, 105, 10] = true := by decide
example : utf8Valid [255] = false := by decide
example : utf8Lossy [0xE2, 0x82, 0xAC] = [0xE2, 0x82, 0xAC] := by decide
example : utf8Lossy [0xE2, 0x82] = [239, 191, 189] := by decide
example : print_bytes [255] (.TakeNum (-1)) 1 = [239, 191, 189] := by decide
example : splitLines [97, 10, 98] = [[97, 10], [98]] := by decide
example : splitLines [10, 10] = [[10], [10]] := by decide
example : count_lines_bytes [97, 10, 98] = (2, 3) := by decide
example :
    print_lines [97, 10, 98, 10, 99, 10] (.TakeNum (-2)) 3 = [98, 10, 99, 10] := by
  decide

theorem utf8LossyAux_of_valid :
    ∀ (fuel : Nat) (l : List Nat), l.length ≤ fuel →
      utf8ValidAux fuel l = true → utf8LossyAux fuel l = l := by
  intro fuel
  induction fuel with
  | zero =>
    intro l hlen _
    cases l with
    | nil => rfl
    | cons b rest => simp at hlen
  | succ fuel ih =>
    intro l hlen hv
    cases l with
    | nil => rfl
    | cons b rest =>
      cases hstep : utf8Head b rest with
      | valid k =>
        simp only [utf8LossyAux, utf8ValidAux, hstep] at hv ⊢
        have hlen2 : ((b :: rest).drop (k + 1)).length ≤ fuel := by
          simp at hlen ⊢; omega
        rw [ih _ hlen2 hv, List.take_append_drop]
      | invalid k =>
        simp only [utf8ValidAux, hstep] at hv
        exact absurd hv (by simp)

/-- Lossy UTF-8 decoding is the identity on well-formed UTF-8 byte
sequences. -/
theorem utf8Lossy_of_valid (l : List Nat) (h : utf8Valid l = true) :
    utf8Lossy l = l :=
  utf8LossyAux_of_valid l.length l le_rfl h

/-- C1 counterexample: the claim demands `Some(max(0, total + n))` for every
`n < 0` and every `total >= 0`, hence `Some(0)` at `n = -1, total = 0`; the
code returns `None` there (`total == 0` short-circuits to `None`). -/
theorem get_start_index_neg_total_zero :
    get_start_index (.TakeNum (-1)) 0 = none ∧
      (none : Option Nat) ≠ some ((max 0 ((0 : Int) + (-1))).toNat) := by
  constructor
  · decide
  · decide

/-- C1 (amended): for every `n < 0` and every `total > 0` (both within the
`i64` range), `get_start_index (Count n) total = Some(max(0, total + n))`;
for `total = 0` the selector returns `None`. -/
theorem get_start_index_neg (n total : Int) (hn : n < 0) (ht : 0 < total)
    (hmax : total ≤ i64Max) (hmin : i64Min ≤ n) :
    get_start_index (.TakeNum n) total = some (max 0 (total + n)).toNat := by
  simp only [i64Min, i64Max] at hmax hmin
  have hw : wrap64 (total + n) = total + n := by
    apply wrap64_eq_self <;> simp only [i64Min, i64Max] <;> omega
  simp only [get_start_index, hw]
  rw [if_neg (show ¬(n = 0 ∨ total = 0 ∨ total < n) by omega), if_pos hn]
  rcases lt_or_ge (total + n) 0 with h | h
  · rw [if_pos h, max_eq_left (le_of_lt h)]
    rfl
  · rw [if_neg (by omega), max_eq_right h]

/-- C1 witness: `n = -3, total = 10` gives `Some(7) = Some(max(0, 10 - 3))`. -/
theorem get_start_index_neg_example :
    get_start_index (.TakeNum (-3)) 10 = some 7 :=
  (get_start_index_neg (-3) 10 (by decide) (by decide) (by decide)
    (by decide)).trans (by decide)

/-- C4 counterexample: the claim quantifies over every `i64` total; at
`TakeSpec = Count(i64::MIN)` and `total = -1` the expression `total + num`
is evaluated and its value `-2^63 - 1` lies outside the `i64` range, so a
debug build of the source panics with an arithmetic overflow. -/
theorem gsiPanics_at_min_neg_total :
    gsiPanics (.TakeNum i64Min) (-1) = true := by decide

/-- C4 (amended): for every `TakeSpec` and every `total` with
`0 <= total <= i64::MAX` (the range of the totals actually produced by the
counting pass), the window selector never overflows (no panic in any build
mode); in particular for `Count(i64::MIN)` and `total > 0` it returns
`Some(0)` without negating `i64::MIN`. -/
theorem gsi_no_panic (tv : TakeValue) (total : Int) (h0 : 0 ≤ total)
    (hmax : total ≤ i64Max) (hr : tvInRange tv) :
    gsiPanics tv total = false ∧
      (tv = .TakeNum i64Min → 0 < total → get_start_index tv total = some 0) := by
  cases tv with
  | PlusZero => exact ⟨rfl, by intro h; cases h⟩
  | TakeNum n =>
    obtain ⟨hnmin, hnmax⟩ := hr
    simp only [i64Min, i64Max] at hnmin hnmax hmax
    constructor
    · simp only [gsiPanics, i64Min, i64Max]
      by_cases hc : n = 0 ∨ total = 0 ∨ total < n
      · rw [if_pos hc]
      · rw [if_neg hc]
        by_cases hneg : n < 0
        · rw [if_pos hneg]
          simp only [decide_eq_false_iff_not]
          omega
        · rw [if_neg hneg]
    · intro heq htpos
      have hn : n = i64Min := by injection heq
      simp only [i64Min] at hn
      subst hn
      have hw : wrap64 (total + -9223372036854775808) =
          total + -9223372036854775808 := by
        apply wrap64_eq_self <;> simp only [i64Min, i64Max] <;> omega
      simp only [get_start_index, hw]
      rw [if_neg (show ¬(-9223372036854775808 = (0 : Int) ∨ total = 0 ∨
            total < -9223372036854775808) by omega),
          if_pos (show (-9223372036854775808 : Int) < 0 by omega),
          if_pos (show total + -9223372036854775808 < 0 by omega)]

/-- C4 witness: `Count(i64::MIN)` with `total = 5`: no overflow, result
`Some(0)`. -/
theorem gsi_no_panic_example :
    gsiPanics (.TakeNum i64Min) 5 = false ∧
      (TakeValue.TakeNum i64Min = .TakeNum i64Min → 0 < (5 : Int) →
        get_start_index (.TakeNum i64Min) 5 = some 0) :=
  gsi_no_panic (.TakeNum i64Min) 5 (by decide) (by decide) (by decide)

/-- C5 (confirmed): for every `n > 0` and `total >= 0`, the selector returns
`None` when `n > total` and `Some(n - 1)` otherwise. -/
theorem get_start_index_pos (n total : Int) (hn : 0 < n) (_ht : 0 ≤ total) :
    get_start_index (.TakeNum n) total =
      if total < n then none else some (n - 1).toNat := by
  simp only [get_start_index]
  by_cases hlt : total < n
  · rw [if_pos (show n = 0 ∨ total = 0 ∨ total < n from Or.inr (Or.inr hlt)),
        if_pos hlt]
  · rw [if_neg (show ¬(n = 0 ∨ total = 0 ∨ total < n) by omega), if_neg hlt,
        if_neg (show ¬ n < 0 by omega), if_neg (show ¬ (n - 1 : Int) < 0 by omega)]

/-- C5 witness: `n = 2, total = 10` gives `Some(1)`; `n = 11, total = 10`
gives `None`. -/
theorem get_start_index_pos_example :
    get_start_index (.TakeNum 2) 10 = some 1 :=
  (get_start_index_pos 2 10 (by decide) (by decide)).trans (by decide)

/-- C10 (confirmed): whenever the selector returns `Some(k)` for a total in
the range actually produced by counting (`0 <= total <= i64::MAX`) and an
`i64`-ranged spec, then `total > 0` and `0 <= k < total`: the start offset is
a valid zero-based index into the stream. -/
theorem get_start_index_valid_index (tv : TakeValue) (total : Int) (k : Nat)
    (h0 : 0 ≤ total) (hmax : total ≤ i64Max) (hr : tvInRange tv)
    (h : get_start_index tv total = some k) :
    0 < total ∧ (k : Int) < total := by
  cases tv with
  | PlusZero =>
    simp only [get_start_index] at h
    by_cases hc : 0 < total
    · rw [if_pos hc] at h
      injection h with h
      subst h
      exact ⟨hc, by exact_mod_cast hc⟩
    · rw [if_neg hc] at h
      cases h
  | TakeNum n =>
    obtain ⟨hnmin, hnmax⟩ := hr
    simp only [i64Min, i64Max] at hnmin hnmax hmax
    simp only [get_start_index] at h
    by_cases hc : n = 0 ∨ total = 0 ∨ total < n
    · rw [if_pos hc] at h; cases h
    · rw [if_neg hc] at h
      push_neg at hc
      obtain ⟨hn0, ht0, hnle⟩ := hc
      have htpos : 0 < total := by omega
      refine ⟨htpos, ?_⟩
      by_cases hneg : n < 0
      · have hw : wrap64 (total + n) = total + n := by
          apply wrap64_eq_self <;> simp only [i64Min, i64Max] <;> omega
        rw [if_pos hneg, hw] at h
        by_cases hs : total + n < 0
        · rw [if_pos hs] at h
          injection h with h
          subst h
          simpa using htpos
        · rw [if_neg hs] at h
          injection h with h
          subst h
          rw [Int.toNat_of_nonneg (by omega)]
          omega
      · rw [if_neg hneg, if_neg (show ¬ (n - 1 : Int) < 0 by omega)] at h
        injection h with h
        subst h
        rw [Int.toNat_of_nonneg (by omega)]
        omega

/-- C10 witness: `Count(-2)` with `total = 10` returns `Some(8)`, and indeed
`0 < 10` and `8 < 10`. -/
theorem get_start_index_valid_index_example :
    0 < (10 : Int) ∧ ((8 : Nat) : Int) < 10 :=
  get_start_index_valid_index (.TakeNum (-2)) 10 8 (by decide) (by decide)
    (by decide) (by decide)

theorem parseDigitsAux_eq (cs : List Char) :
    ∀ acc, parseDigitsAux cs acc =
      if cs.all isDig then
        some (cs.foldl (fun a c => a * 10 + (c.toNat - 48)) acc)
      else none := by
  induction cs with
  | nil => intro acc; simp [parseDigitsAux]
  | cons c cs ih =>
    intro acc
    by_cases hc : isDig c
    · simp [parseDigitsAux, hc, ih]
    · simp [parseDigitsAux, hc]

theorem parseI64Core_eq (sign : Int) (ds : List Char) :
    parseI64Core sign ds =
      if ds ≠ [] ∧ ds.all isDig = true ∧
          i64Min ≤ sign * (digitsVal ds : Int) ∧
          sign * (digitsVal ds : Int) ≤ i64Max
      then some (sign * (digitsVal ds : Int)) else none := by
  unfold parseI64Core
  rw [parseDigitsAux_eq]
  by_cases h0 : ds = []
  · subst h0; simp
  · by_cases hall : ds.all isDig
    · have hv : ds.foldl (fun a c => a * 10 + (c.toNat - 48)) 0 = digitsVal ds := rfl
      simp only [if_neg h0, if_pos hall, hv]
      by_cases hr : i64Min ≤ sign * (digitsVal ds : Int) ∧
          sign * (digitsVal ds : Int) ≤ i64Max
      · rw [if_pos hr, if_pos ⟨h0, hall, hr.1, hr.2⟩]
      · rw [if_neg hr, if_neg (by tauto)]
    · simp only [if_neg h0]
      rw [if_neg hall, if_neg (by tauto)]

theorem signTail_not_match {rest : List Char}
    (h : (decide (rest ≠ []) && rest.all isDig) = false) :
    ¬(rest ≠ [] ∧ rest.all isDig = true) := by
  simp only [Bool.and_eq_false_iff, decide_eq_false_iff_not, not_not] at h
  rintro ⟨h1, h2⟩
  rcases h with h | h
  · exact h1 h
  · rw [h2] at h; cases h

theorem parseI64_none_of_not_match (s : List Char)
    (h : matchesNumPat s = false) : parseI64 s = none := by
  cases s with
  | nil => rfl
  | cons c rest =>
    simp only [parseI64]
    simp only [matchesNumPat] at h
    by_cases hp : c = '+'
    · rw [if_pos hp, parseI64Core_eq]
      rw [if_pos (by simp [hp]) ] at h
      exact if_neg (fun hc => signTail_not_match h ⟨hc.1, hc.2.1⟩)
    · by_cases hm : c = '-'
      · rw [if_neg hp, if_pos hm, parseI64Core_eq]
        rw [if_pos (by simp [hm]) ] at h
        exact if_neg (fun hc => signTail_not_match h ⟨hc.1, hc.2.1⟩)
      · rw [if_neg hp, if_neg hm, parseI64Core_eq]
        rw [if_neg (by simp [hp, hm]) ] at h
        exact if_neg (fun hc => absurd hc.2.1 (by simp [h]))

theorem regexCaptures_none_of_not_match (s : List Char)
    (h : matchesNumPat s = false) : regexCaptures s = none := by
  cases s with
  | nil => rfl
  | cons c rest =>
    simp only [regexCaptures]
    simp only [matchesNumPat] at h
    by_cases hs : c = '+' ∨ c = '-'
    · rw [if_pos hs]
      rw [if_pos hs] at h
      exact if_neg (signTail_not_match h)
    · rw [if_neg hs]
      rw [if_neg hs] at h
      exact if_neg (fun hc => absurd hc (by simp [h]))

/-- C7 (confirmed): every input string that does not match `[+-]?[0-9]+`
makes both parsers fail with an error carrying exactly the original input
string. -/
theorem parsers_error_echoes_input (s : List Char)
    (h : matchesNumPat s = false) :
    parse_num_without_regex s = .error s ∧ parse_num s = .error s := by
  have hp : parseI64 s = none := parseI64_none_of_not_match s h
  constructor
  · simp only [parse_num_without_regex, hp]
    by_cases hs : startsWithSign s <;> simp [hs]
  · simp only [parse_num, regexCaptures_none_of_not_match s h]

/-- C7 witness: `"foo"` does not match the pattern, and both parsers return
an error echoing `"foo"`. -/
theorem parsers_error_echoes_input_example :
    parse_num_without_regex "foo".toList = .error "foo".toList ∧
      parse_num "foo".toList = .error "foo".toList :=
  parsers_error_echoes_input "foo".toList (by decide)

/-- C6 (confirmed): `"+0"` parses to `FromStart`; `"0"` and `"-0"` parse to
`Count(0)`; `"+5"` parses to `Count(5)`; `"5"` and `"-5"` parse to
`Count(-5)` — for both parsers. -/
theorem parse_round_trip :
    parse_num_without_regex "+0".toList = .ok .PlusZero ∧
    parse_num "+0".toList = .ok .PlusZero ∧
    parse_num_without_regex "0".toList = .ok (.TakeNum 0) ∧
    parse_num "0".toList = .ok (.TakeNum 0) ∧
    parse_num_without_regex "-0".toList = .ok (.TakeNum 0) ∧
    parse_num "-0".toList = .ok (.TakeNum 0) ∧
    parse_num_without_regex "+5".toList = .ok (.TakeNum 5) ∧
    parse_num "+5".toList = .ok (.TakeNum 5) ∧
    parse_num_without_regex "5".toList = .ok (.TakeNum (-5)) ∧
    parse_num "5".toList = .ok (.TakeNum (-5)) ∧
    parse_num_without_regex "-5".toList = .ok (.TakeNum (-5)) ∧
    parse_num "-5".toList = .ok (.TakeNum (-5)) := by decide

/-- C3 counterexample: the claim states that the line-mode parser
`parse_num_without_regex` also accepts the boundary magnitude
`"9223372036854775808"`; it does not — it parses the positive magnitude
first (which overflows `i64`) and only then negates, so it rejects the
string with an error echoing it. -/
theorem parse_boundary_rejected_without_regex :
    parse_num_without_regex "9223372036854775808".toList
      = .error "9223372036854775808".toList ∧
      .error "9223372036854775808".toList
        ≠ (Except.ok (TakeValue.TakeNum i64Min) : Except (List Char) TakeValue) := by
  constructor
  · decide
  · decide

theorem pnw_plus (rest : List Char) :
    parse_num_without_regex ('+' :: rest) =
      match parseI64Core 1 rest with
      | some v => if v = 0 then .ok .PlusZero else .ok (.TakeNum v)
      | none => .error ('+' :: rest) := by
  cases hres : parseI64Core 1 rest with
  | some v =>
    simp only [parse_num_without_regex, startsWithSign, parseI64, hres]
    simp [List.head?]
  | none =>
    simp only [parse_num_without_regex, startsWithSign, parseI64, hres]
    simp

theorem pn_plus (rest : List Char) :
    parse_num ('+' :: rest) =
      match parseI64Core 1 rest with
      | some v => if v = 0 then .ok .PlusZero else .ok (.TakeNum v)
      | none => .error ('+' :: rest) := by
  by_cases hd : rest ≠ [] ∧ rest.all isDig = true
  · simp only [parse_num, regexCaptures]
    rw [if_pos (by simp), if_pos hd]
    cases hres : parseI64Core 1 rest with
    | some v => simp [Option.getD, parseI64, hres]
    | none => simp [Option.getD, parseI64, hres]
  · have hnone : parseI64Core 1 rest = none := by
      rw [parseI64Core_eq]
      exact if_neg (fun hc => hd ⟨hc.1, hc.2.1⟩)
    simp only [parse_num, regexCaptures, hnone]
    rw [if_pos (by simp), if_neg hd]

theorem pnw_minus (rest : List Char) :
    parse_num_without_regex ('-' :: rest) =
      match parseI64Core (-1) rest with
      | some v => .ok (.TakeNum v)
      | none => .error ('-' :: rest) := by
  cases hres : parseI64Core (-1) rest with
  | some v =>
    simp only [parse_num_without_regex, startsWithSign, parseI64, hres]
    simp [List.head?]
  | none =>
    simp only [parse_num_without_regex, startsWithSign, parseI64, hres]
    simp

theorem pn_minus (rest : List Char) :
    parse_num ('-' :: rest) =
      match parseI64Core (-1) rest with
      | some v => .ok (.TakeNum v)
      | none => .error ('-' :: rest) := by
  by_cases hd : rest ≠ [] ∧ rest.all isDig = true
  · simp only [parse_num, regexCaptures]
    rw [if_pos (by simp), if_pos hd]
    cases hres : parseI64Core (-1) rest with
    | some v => simp [Option.getD, parseI64, hres]
    | none => simp [Option.getD, parseI64, hres]
  · have hnone : parseI64Core (-1) rest = none := by
      rw [parseI64Core_eq]
      exact if_neg (fun hc => hd ⟨hc.1, hc.2.1⟩)
    simp only [parse_num, regexCaptures, hnone]
    rw [if_pos (by simp), if_neg hd]

theorem pnw_nosign (c : Char) (rest : List Char) (hp : ¬ c = '+')
    (hm : ¬ c = '-') :
    parse_num_without_regex (c :: rest) =
      match parseI64Core 1 (c :: rest) with
      | some v => .ok (.TakeNum (wrappingNeg64 v))
      | none => .error (c :: rest) := by
  cases hres : parseI64Core 1 (c :: rest) with
  | some v =>
    simp only [parse_num_without_regex, startsWithSign, parseI64]
    rw [if_neg hp, if_neg hm]
    simp only [hres]
    rw [if_neg (by simp [hp, hm])]
    simp [List.head?, hp]
  | none =>
    simp only [parse_num_without_regex, startsWithSign, parseI64]
    rw [if_neg hp, if_neg hm]
    simp only [hres]
    rw [if_neg (by simp [hp, hm])]
    simp

theorem pn_nosign (c : Char) (rest : List Char) (hp : ¬ c = '+')
    (hm : ¬ c = '-') :
    parse_num (c :: rest) =
      if (c :: rest).all isDig = true then
        match parseI64Core (-1) (c :: rest) with
        | some v => .ok (.TakeNum v)
        | none => .error (c :: rest)
      else .error (c :: rest) := by
  by_cases hall : (c :: rest).all isDig = true
  · simp only [parse_num, regexCaptures]
    rw [if_neg (by simp [hp, hm]), if_pos hall, if_pos hall]
    cases hres : parseI64Core (-1) (c :: rest) with
    | some v => simp [Option.getD, parseI64, hres]
    | none => simp [Option.getD, parseI64, hres]
  · simp only [parse_num, regexCaptures]
    rw [if_neg (by simp [hp, hm]), if_neg hall, if_neg hall]

/-- C9 counterexample: the two parsers disagree on the unsigned boundary
magnitude `"9223372036854775808"`: `parse_num_without_regex` rejects it while
`parse_num` accepts it as `Count(i64::MIN)`. -/
theorem parsers_differ_at_boundary :
    parse_num_without_regex "9223372036854775808".toList
      ≠ parse_num "9223372036854775808".toList := by decide

/-- C9 (amended): the two parsers agree on every input except unsigned digit
strings whose numeric value is exactly 2^63 (such as
`"9223372036854775808"`), which `parse_num` maps to `Count(i64::MIN)` and
`parse_num_without_regex` rejects with an error echoing the input. -/
theorem parsers_equiv (s : List Char)
    (h : ¬(s ≠ [] ∧ s.all isDig = true ∧
      digitsVal s = 9223372036854775808)) :
    parse_num_without_regex s = parse_num s := by
  cases s with
  | nil => rfl
  | cons c rest =>
    by_cases hp : c = '+'
    · subst hp
      rw [pnw_plus, pn_plus]
    · by_cases hm : c = '-'
      · subst hm
        rw [pnw_minus, pn_minus]
      · rw [pnw_nosign c rest hp hm, pn_nosign c rest hp hm]
        by_cases hall : (c :: rest).all isDig = true
        · rw [if_pos hall]
          have hne : digitsVal (c :: rest) ≠ 9223372036854775808 := by
            intro hv
            exact h ⟨by simp, hall, hv⟩
          rw [parseI64Core_eq, parseI64Core_eq]
          by_cases hle : (digitsVal (c :: rest) : Int) ≤ i64Max
          · rw [if_pos ⟨by simp, hall, by
                  simp only [i64Min, i64Max] at *; omega,
                by simp only [i64Min, i64Max] at *; omega⟩,
              if_pos ⟨by simp, hall, by
                  simp only [i64Min, i64Max] at *; omega,
                by simp only [i64Min, i64Max] at *; omega⟩]
            have hwn : wrappingNeg64 (1 * (digitsVal (c :: rest) : Int)) =
                -1 * (digitsVal (c :: rest) : Int) := by
              unfold wrappingNeg64
              rw [wrap64_eq_self (by simp only [i64Min, i64Max] at *; omega)
                (by simp only [i64Min, i64Max] at *; omega)]
              ring
            simp only [hwn]
          · rw [if_neg (fun hc => absurd hc.2.2.2 (by
                  simp only [i64Min, i64Max] at *; omega)),
              if_neg (fun hc => absurd hc.2.2.1 (by
                  simp only [i64Min, i64Max] at *; omega))]
        · rw [if_neg hall]
          have hnone : parseI64Core 1 (c :: rest) = none := by
            rw [parseI64Core_eq]
            exact if_neg (fun hc => hall hc.2.1)
          rw [hnone]

/-- C9 witness: at the ordinary input `"5"` (an unsigned digit string whose
value is not 2^63) both parsers produce the same result. -/
theorem parsers_equiv_example :
    parse_num_without_regex "5".toList = parse_num "5".toList :=
  parsers_equiv "5".toList (by decide)

/-- C2 counterexample: with the one-byte stream `FF` (not valid UTF-8) and
spec `Count(-1)`, the selector yields `Some(0)` but the bytes written are
`EF BF BD` (the replacement character U+FFFD produced by
`String::from_utf8_lossy`), not the original byte `FF`: the copy is not
byte-exact. -/
theorem print_bytes_not_binary_safe :
    get_start_index (.TakeNum (-1)) 1 = some 0 ∧
      print_bytes [255] (.TakeNum (-1)) 1 = [239, 191, 189] ∧
      [(239 : Nat), 191, 189] ≠ [255] :=
  ⟨by decide, by decide, by decide⟩

/-- C2 (amended): in byte mode, when the selector yields `Some(start)`, the
suffix of the source from offset `start` is written through
`String::from_utf8_lossy`; whenever that suffix is well-formed UTF-8 it is
copied byte-for-byte, but invalid sequences are replaced by U+FFFD, so the
copy is not binary-safe in general. -/
theorem print_bytes_verbatim_on_valid_utf8 (stream : List Nat)
    (nb : TakeValue) (total : Int) (start : Nat)
    (hs : get_start_index nb total = some start)
    (hv : utf8Valid (stream.drop start) = true) :
    print_bytes stream nb total = stream.drop start := by
  simp only [print_bytes, hs]
  exact utf8Lossy_of_valid _ hv

/-- C2 witness: stream `61 62` (`"ab"`), spec `Count(-1)`, total 2: the
selector yields `Some(1)` and the valid suffix `62` is copied verbatim. -/
theorem print_bytes_verbatim_example :
    print_bytes [97, 98] (.TakeNum (-1)) 2 = List.drop 1 [97, 98] :=
  print_bytes_verbatim_on_valid_utf8 [97, 98] (.TakeNum (-1)) 2 1
    (by decide) (by decide)

theorem runLoop_append (n : Nat) (q : Bool) (ls : TakeValue)
    (bs : Option TakeValue) (A : List (List Nat × Option (List Nat))) :
    ∀ (B : List (List Nat × Option (List Nat))) (i : Nat),
      runLoop n q ls bs i (A ++ B) =
        runLoop n q ls bs i A ++ runLoop n q ls bs (i + A.length) B := by
  induction A with
  | nil => intro B i; simp [runLoop]
  | cons f A ih =>
    intro B i
    obtain ⟨filename, content⟩ := f
    simp only [List.cons_append, runLoop, List.append_eq, List.length_cons]
    rw [ih B (i + 1), List.append_assoc]
    have h2 : i + 1 + A.length = i + (A.length + 1) := by omega
    rw [h2]
    exact (List.append_assoc _ _ _).symm

/-- C8 (confirmed): when more than one file is processed with the quiet flag
unset, each opened file's output is immediately preceded by the header bytes
`==> <path> <==` followed by a newline, and for every file after the first
(by enumeration position) one blank line precedes the header. -/
theorem run_header_format (A B : List (List Nat × Option (List Nat)))
    (name data : List Nat) (ls : TakeValue) (bs : Option TakeValue)
    (hlen : 1 < (A ++ (name, some data) :: B).length) :
    runOutput (A ++ (name, some data) :: B) ls bs false =
      runLoop (A ++ (name, some data) :: B).length false ls bs 0 A
        ++ (if A.length = 0 then [] else [10])
        ++ ([61, 61, 62, 32] ++ name ++ [32, 60, 61, 61, 10])
        ++ fileBody ls bs data
        ++ runLoop (A ++ (name, some data) :: B).length false ls bs
            (A.length + 1) B := by
  unfold runOutput
  rw [runLoop_append]
  simp only [runLoop]
  rw [if_pos ⟨by simp, hlen⟩]
  by_cases hA : A.length = 0
  · simp [hA, List.append_assoc]
  · simp [hA, Nat.pos_of_ne_zero hA, List.append_assoc]

/-- C8 witness: two openable files; the second file's section is preceded by
a blank line and its header, the first by its header only. -/
theorem run_header_format_example :
    runOutput ([([97], some [120, 10])] ++ ([98], some [121, 10]) :: [])
        (.TakeNum (-10)) none false =
      runLoop ([([97], some [120, 10])] ++ ([98], some [121, 10]) :: []).length
          false (.TakeNum (-10)) none 0 [([97], some [120, 10])]
        ++ (if [([97], some [120, 10])].length = 0 then [] else [10])
        ++ ([61, 61, 62, 32] ++ [98] ++ [32, 60, 61, 61, 10])
        ++ fileBody (.TakeNum (-10)) none [121, 10]
        ++ runLoop ([([97], some [120, 10])] ++ ([98], some [121, 10]) :: []).length
            false (.TakeNum (-10)) none ([([97], some [120, 10])].length + 1) [] :=
  run_header_format [([97], some [120, 10])] [] [98] [121, 10]
    (.TakeNum (-10)) none (by decide)

/-- C3 (amended): the byte-mode parser `parse_num` accepts
`"9223372036854775808"` and produces `Count(i64::MIN)`, because it applies
the implicit negative sign before parsing; the line-mode parser
`parse_num_without_regex` instead parses the positive magnitude first and
therefore rejects this string with an error echoing it. -/
theorem parse_boundary_magnitude :
    parse_num "9223372036854775808".toList
      = .ok (.TakeNum (-9223372036854775808)) ∧
      parse_num_without_regex "9223372036854775808".toList
        = .error "9223372036854775808".toList := by
  constructor
  · decide
  · decide

end Tailr
